import Mathlib

set_option maxHeartbeats 1000000
set_option maxRecDepth 4000

/- Verification development for the sync_pool repository: a generic object
pool built on a lock-free ring-buffer dequeue (pool_queue.go) and a sharded
per-worker pool with a two-generation decay protocol (pool.go).

Machine integers are modelled as Nat with explicit reductions modulo 2^32
and 2^64 exactly where the Go code relies on fixed-width wraparound
(uint32 index arithmetic, the packed 64-bit headTail word). Code paths that
dereference a nil pointer at run time, and therefore abort the process, are
modelled by explicit panic outcomes. -/

/-- The constant `dequeueBits = 32` from pool_queue.go. -/
def dequeueBits : Nat := 32

/-- `dequeueLimit = (1 << dequeueBits) / 4`, the maximum size of a
poolDequeue (pool_queue.go line 35). -/
def dequeueLimit : Nat := (1 <<< dequeueBits) / 4

/-- The local constant `mask = 1<<dequeueBits - 1` used by `pack`, `unpack`
and `pushHead`. -/
def dequeueMask : Nat := (1 <<< dequeueBits) - 1

/-- `poolDequeue.unpack`: split the packed 64-bit headTail word into its
32-bit (head, tail) halves. -/
def unpack (ptrs : Nat) : Nat × Nat :=
  ((ptrs >>> dequeueBits) &&& dequeueMask, ptrs &&& dequeueMask)

/-- `poolDequeue.pack`: pack 32-bit head and tail indices into one 64-bit
word: `(uint64(head) << dequeueBits) | uint64(tail&mask)`. The low
`dequeueBits` bits of the shifted head are zero, so the bitwise or is plain
addition; the definition uses the arithmetic form and `pack_bits` below
proves it equal to the source's bit-level expression. -/
def pack (head tail : Nat) : Nat :=
  2 ^ dequeueBits * head + tail % 2 ^ dequeueBits

theorem dequeueMask_eq : dequeueMask = 2 ^ 32 - 1 := by decide

theorem dequeueLimit_eq : dequeueLimit = 2 ^ 30 := by decide

theorem land_mask (x : Nat) : x &&& dequeueMask = x % 2 ^ 32 := by
  rw [dequeueMask_eq, Nat.and_pow_two_sub_one_eq_mod]

/-- Arithmetic reading of `unpack`: the high 32 bits and the low 32 bits. -/
theorem unpack_eq (ptrs : Nat) :
    unpack ptrs = ((ptrs / 2 ^ 32) % 2 ^ 32, ptrs % 2 ^ 32) := by
  unfold unpack
  rw [land_mask, land_mask]
  simp only [dequeueBits, Nat.shiftRight_eq_div_pow]

/-- Arithmetic reading of `pack`. -/
theorem pack_eq (h t : Nat) : pack h t = 2 ^ 32 * h + t % 2 ^ 32 :=
  Eq.refl _

/-- `pack` agrees with the source's bit-level expression
`(head << dequeueBits) | (tail & mask)`. -/
theorem pack_bits (h t : Nat) :
    pack h t = (h <<< dequeueBits) ||| (t &&& dequeueMask) := by
  rw [pack_eq, land_mask]
  simp only [dequeueBits, Nat.shiftLeft_eq]
  rw [Nat.mul_add_lt_is_or (Nat.mod_lt t (by decide)) h, Nat.mul_comm]

/-- Claim C10: for every pair of 32-bit indices (head, tail), unpacking the
packed 64-bit word produced from them returns the same pair. -/
theorem c10_unpack_pack (h t : Nat) (hh : h < 2 ^ 32) (ht : t < 2 ^ 32) :
    unpack (pack h t) = (h, t) := by
  rw [unpack_eq, pack_eq]
  congr 1 <;> omega

theorem c10_unpack_pack_witness :
    (4294966796 : Nat) < 2 ^ 32 ∧ (7 : Nat) < 2 ^ 32 ∧
      unpack (pack 4294966796 7) = (4294966796, 7) :=
  ⟨by decide, by decide, c10_unpack_pack 4294966796 7 (by decide) (by decide)⟩

/-- Result of a dequeue pop: a popped value, a boolean-false miss, or a
run-time nil-pointer-dereference abort. -/
inductive PopOutcome (α : Type) where
  | ok : α → PopOutcome α
  | fail : PopOutcome α
  | panic : PopOutcome α
deriving DecidableEq

/-- Result of a dequeue push: true, false, or a run-time abort. -/
inductive PushOutcome where
  | ok : PushOutcome
  | fail : PushOutcome
  | panic : PushOutcome
deriving DecidableEq

/-- `poolDequeue`: the lock-free fixed-size ring buffer. `vals` models the
`[]atomic.Pointer[T]` slice; `none` models a nil (empty) slot. -/
structure poolDequeue (α : Type) where
  headTail : Nat
  vals : List (Option α)
deriving DecidableEq

section DequeueOps

variable {α : Type} (isNil : α → Bool)

/-- `poolDequeue.pushHead` (pool_queue.go lines 56-77). Fails when the ring
is full (`(tail+len)&mask == head`) or when the target slot is still
occupied. A nil value would be replaced by dereferencing the nil
`dequeueNil` sentinel pointer, which aborts: modelled as `.panic`. On
success the value is written into slot `head & (len-1)` and the head half of
the packed counter is incremented (64-bit atomic add of `1<<dequeueBits`). -/
def poolDequeue.pushHead (d : poolDequeue α) (v : α) : poolDequeue α × PushOutcome :=
  let hd := (unpack d.headTail).1
  let tl := (unpack d.headTail).2
  let n := d.vals.length
  if (tl + n) &&& dequeueMask = hd then
    (d, .fail)
  else
    let idx := hd &&& (n - 1)
    if (d.vals.getD idx none).isSome then
      (d, .fail)
    else if isNil v then
      (d, .panic)
    else
      ({ headTail := (d.headTail + (1 <<< dequeueBits)) % 2 ^ 64,
         vals := d.vals.set idx (some v) }, .ok)

/-- `poolDequeue.popHead` (pool_queue.go lines 82-107). On an empty ring the
code executes `return *zero, false` where `zero` is a nil `*T`, a nil
dereference: modelled as `.panic` with the state unchanged. Otherwise head
is decremented (uint32 wraparound) and the packed word CASed (the CAS always
succeeds in this sequential model); the slot is then read and cleared. A
nil value read from the slot would be replaced by dereferencing the nil
`dequeueNil` sentinel, which also aborts. -/
def poolDequeue.popHead (d : poolDequeue α) : poolDequeue α × PopOutcome α :=
  let hd := (unpack d.headTail).1
  let tl := (unpack d.headTail).2
  if tl = hd then
    (d, .panic)
  else
    let hd1 := (hd + (2 ^ 32 - 1)) % 2 ^ 32
    let n := d.vals.length
    let idx := hd1 &&& (n - 1)
    let d1 : poolDequeue α := { headTail := pack hd1 tl, vals := d.vals }
    match d.vals.getD idx none with
    | none => (d1, .panic)
    | some v =>
      if isNil v then (d1, .panic)
      else ({ d1 with vals := d1.vals.set idx none }, .ok v)

/-- `poolDequeue.popTail` (pool_queue.go lines 112-138). On an empty ring it
returns `(zero, false)`: modelled as `.fail`. Otherwise tail is advanced by
CAS, the slot is read, and then the code executes `slot = nil` followed by
`slot.Store(nil)`: `Store` through the now-nil local pointer dereferences
nil and aborts, so the successful branch always panics, with the packed
counter already advanced and the slot left uncleared. -/
def poolDequeue.popTail (d : poolDequeue α) : poolDequeue α × PopOutcome α :=
  let hd := (unpack d.headTail).1
  let tl := (unpack d.headTail).2
  if tl = hd then
    (d, .fail)
  else
    ({ headTail := pack hd (tl + 1), vals := d.vals }, .panic)

end DequeueOps

/-- A freshly allocated segment as `poolChain.pushHead` builds it:
`make([]atomic.Pointer[T], n)` with a zero headTail word. -/
def freshDequeue (α : Type) (n : Nat) : poolDequeue α :=
  { headTail := 0, vals := List.replicate n none }

/-- The dequeue built by `NewPoolDequeue` (export_test.go): head and tail
start close to the 32-bit wrap-around point. -/
def NewPoolDequeue (α : Type) (n : Nat) : poolDequeue α :=
  { headTail := pack (2 ^ 32 - 500) (2 ^ 32 - 500), vals := List.replicate n none }

/-- `poolChain`: the dynamically-sized chain of dequeues. The doubly-linked
list of `poolChainElt` nodes is modelled as the list of segments reachable
between the chain's head and tail pointers, NEWEST FIRST: `segs.head?` is
the producer-side head element and the last element is the consumer-side
tail element; the `prev`/`next` links are implicit in the list order. -/
structure poolChain (α : Type) where
  segs : List (poolDequeue α)
deriving DecidableEq

/-- The new segment size computed in `poolChain.pushHead` (pool_queue.go
lines 171-174): `newSize := len(d.vals) << 1;
if newSize >= dequeueLimit { newSize = dequeueLimit }`. -/
def newChainSize (n : Nat) : Nat :=
  let newSize := n <<< 1
  if newSize ≥ dequeueLimit then dequeueLimit else newSize

section ChainOps

variable {α : Type}

/-- `poolChain.pushHead` (pool_queue.go lines 158-181). If the chain is
empty a segment of size 8 is allocated first. If the head segment rejects
the push, a fresh segment of `newChainSize` is allocated, linked in as the
new head, and pushed into (the result of that inner push is discarded by
the source; we surface it as the outcome). -/
def poolChain.pushHead (isNil : α → Bool) (c : poolChain α) (v : α) :
    poolChain α × PushOutcome :=
  let step : poolDequeue α → List (poolDequeue α) → poolChain α × PushOutcome :=
    fun d rest =>
      match poolDequeue.pushHead isNil d v with
      | (d1, PushOutcome.ok) => (⟨d1 :: rest⟩, PushOutcome.ok)
      | (d1, PushOutcome.panic) => (⟨d1 :: rest⟩, PushOutcome.panic)
      | (d1, PushOutcome.fail) =>
        let d2 := freshDequeue α (newChainSize d1.vals.length)
        let r2 := poolDequeue.pushHead isNil d2 v
        (⟨r2.1 :: d1 :: rest⟩, r2.2)
  match c.segs with
  | [] => step (freshDequeue α 8) []
  | d :: rest => step d rest

/-- Traversal of `poolChain.popHead` (pool_queue.go lines 183-193): walk
from the head element along `prev` links, popping from the head of each
segment, stopping at the first success; the segments are received newest
first. -/
def poolChain.popHeadGo (isNil : α → Bool) :
    List (poolDequeue α) → List (poolDequeue α) × PopOutcome α
  | [] => ([], PopOutcome.fail)
  | d :: rest =>
    match poolDequeue.popHead isNil d with
    | (d1, PopOutcome.fail) =>
      let r := poolChain.popHeadGo isNil rest
      (d1 :: r.1, r.2)
    | (d1, out) => (d1 :: rest, out)

/-- `poolChain.popHead`. -/
def poolChain.popHead (isNil : α → Bool) (c : poolChain α) :
    poolChain α × PopOutcome α :=
  let r := poolChain.popHeadGo isNil c.segs
  (⟨r.1⟩, r.2)

/-- Traversal of `poolChain.popTail` (pool_queue.go lines 195-215): the
segments are received OLDEST first (the direction of the chain's tail
pointer and `next` links). A segment that reports empty and has a `next`
element is unlinked (the tail pointer is CASed forward, dropping it);
if it has no `next` the chain reports empty and keeps the segment. -/
def poolChain.popTailGo :
    List (poolDequeue α) → List (poolDequeue α) × PopOutcome α
  | [] => ([], PopOutcome.fail)
  | d :: rest =>
    match poolDequeue.popTail d with
    | (d1, PopOutcome.fail) =>
      if rest.isEmpty then ([d1], PopOutcome.fail)
      else poolChain.popTailGo rest
    | (d1, out) => (d1 :: rest, out)

/-- `poolChain.popTail`. -/
def poolChain.popTail (c : poolChain α) : poolChain α × PopOutcome α :=
  let r := poolChain.popTailGo c.segs.reverse
  (⟨r.1.reverse⟩, r.2)

end ChainOps

/-- `poolLocalInternal`: the worker-private single-value slot plus the
shared chain. `private` is a reserved word in Lean, hence `private_`. The
cache-line padding of `poolLocal` is layout-only and not modelled. -/
structure poolLocal (α : Type) where
  private_ : α
  shared : poolChain α
deriving DecidableEq

/-- The `Pool` structure (pool.go lines 39-59): the factory callback, the
current generation (`local` array and `localSize`) and the victim
generation. The padding fields and the noCopy marker are layout-only.
`local` is a reserved word in Lean, hence `local_`. -/
structure Pool (α : Type) where
  New : Option (Unit → α)
  local_ : Option (List (poolLocal α))
  localSize : Nat
  victim : Option (List (poolLocal α))
  victimSize : Nat

/-- Outcome of the slow path: a value (possibly the zero value) or an
abort. -/
inductive SlowRes (α : Type) where
  | val : α → SlowRes α
  | panic : SlowRes α
deriving DecidableEq

section PoolOps

variable {α : Type}

/-- The first loop of `Pool.getSlow` (pool.go lines 163-168): pop the tail
of each indexed worker's chain in turn, returning the first popped value
that is not nil. `js` is the list of worker indices visited; an index out
of range models the out-of-bounds pointer arithmetic of `indexLocal` and
aborts. On a miss the loop variable `x` holds the zero value and the
`!isNil(x)` test is applied to it. -/
def slowScan1 (zero : α) (isNil : α → Bool) :
    List (poolLocal α) → List Nat → List (poolLocal α) × Option (SlowRes α)
  | ls, [] => (ls, none)
  | ls, j :: js =>
    match ls[j]? with
    | none => (ls, some SlowRes.panic)
    | some l =>
      let r := poolChain.popTail l.shared
      let ls1 := ls.set j { l with shared := r.1 }
      match r.2 with
      | PopOutcome.panic => (ls1, some SlowRes.panic)
      | PopOutcome.ok x =>
        if isNil x then slowScan1 zero isNil ls1 js else (ls1, some (SlowRes.val x))
      | PopOutcome.fail =>
        if isNil zero then slowScan1 zero isNil ls1 js
        else (ls1, some (SlowRes.val zero))

/-- The victim chain scan of `Pool.getSlow` (pool.go lines 183-188). The
source's loop condition is `&x != nil`: the address of a local variable,
never nil, so the body returns on its first iteration with whatever
`popTail` produced - the popped value on success, the zero value on a
miss. -/
def slowScan2 (zero : α) :
    List (poolLocal α) → List Nat → List (poolLocal α) × Option (SlowRes α)
  | ls, [] => (ls, none)
  | ls, j :: _ =>
    match ls[j]? with
    | none => (ls, some SlowRes.panic)
    | some l =>
      let r := poolChain.popTail l.shared
      let ls1 := ls.set j { l with shared := r.1 }
      match r.2 with
      | PopOutcome.panic => (ls1, some SlowRes.panic)
      | PopOutcome.ok x => (ls1, some (SlowRes.val x))
      | PopOutcome.fail => (ls1, some (SlowRes.val zero))

/-- `Pool.getSlow` (pool.go lines 159-193): scan the other workers' chain
tails starting after `pid`; on total miss consult the victim generation:
first its private slot for `pid`, then the victim chain scan; only if that
scan's loop runs to completion is `victimSize` zeroed. -/
def Pool.getSlow (zero : α) (isNil : α → Bool) (p : Pool α) (pid : Nat) :
    Pool α × SlowRes α :=
  let size := p.localSize
  let ls := p.local_.getD []
  let r1 := slowScan1 zero isNil ls
    ((List.range size).map (fun i => (pid + i + 1) % size))
  let p1 : Pool α := { p with local_ := p.local_.map (fun _ => r1.1) }
  match r1.2 with
  | some res => (p1, res)
  | none =>
    let vsize := p1.victimSize
    if pid ≥ vsize then (p1, SlowRes.val zero)
    else
      let vls := p1.victim.getD []
      match vls[pid]? with
      | none => (p1, SlowRes.panic)
      | some l =>
        if ¬ (isNil l.private_) then
          let vls1 := vls.set pid { l with private_ := zero }
          ({ p1 with victim := p1.victim.map (fun _ => vls1) },
           SlowRes.val l.private_)
        else
          let r2 := slowScan2 zero vls
            ((List.range vsize).map (fun i => (pid + i) % vsize))
          match r2.2 with
          | some res => ({ p1 with victim := p1.victim.map (fun _ => r2.1) }, res)
          | none =>
            ({ p1 with victim := p1.victim.map (fun _ => r2.1), victimSize := 0 },
             SlowRes.val zero)

/-- `Pool.Put` (pool.go lines 93-118) as seen by a caller pinned to worker
`pid`. Lazy allocation by `pinSlow` is not modelled: every claim exercises
an allocated pool, and when `local_` is `none` or `pid` is out of range the
model leaves the pool unchanged. Race-detector instrumentation is compiled
out in normal builds. The second `isNil(x)` test is the source's own: it
can never be true after the early return, so the private slot is never
written by Put. -/
def Pool.Put (isNil : α → Bool) (p : Pool α) (pid : Nat) (x : α) : Pool α :=
  if isNil x then p
  else
    match p.local_ with
    | none => p
    | some ls =>
      match ls[pid]? with
      | none => p
      | some l =>
        if isNil x then
          { p with local_ := some (ls.set pid { l with private_ := x }) }
        else
          { p with local_ := some (ls.set pid
              { l with shared := (poolChain.pushHead isNil l.shared x).1 }) }

/-- Outcome of Get: a value, a run-time abort, or the unmodelled
lazy-allocation path (`pin` falling through to `pinSlow`). -/
inductive GetOutcome (α : Type) where
  | val : α → GetOutcome α
  | panic : GetOutcome α
  | unallocated : GetOutcome α
deriving DecidableEq

/-- The tail of `Pool.Get` (pool.go lines 153-156):
`if isNil(x) && p.New != nil { return p.New() }; return x`. -/
def Pool.getFinish (isNil : α → Bool) (p : Pool α) (x : α) :
    Pool α × GetOutcome α :=
  if isNil x then
    match p.New with
    | some f => (p, GetOutcome.val (f ()))
    | none => (p, GetOutcome.val x)
  else (p, GetOutcome.val x)

/-- The slow-path continuation of `Pool.Get`: `x = p.getSlow(pid)` followed
by the factory branch. -/
def Pool.getViaSlow (zero : α) (isNil : α → Bool) (p : Pool α) (pid : Nat) :
    Pool α × GetOutcome α :=
  match Pool.getSlow zero isNil p pid with
  | (p3, SlowRes.panic) => (p3, GetOutcome.panic)
  | (p3, SlowRes.val y) => Pool.getFinish isNil p3 y

/-- `Pool.Get` (pool.go lines 129-157) for a caller pinned to worker `pid`:
read and clear the private slot; if that was nil, pop the own chain head;
if still nil, take the slow path; finally the factory branch. -/
def Pool.Get (zero : α) (isNil : α → Bool) (p : Pool α) (pid : Nat) :
    Pool α × GetOutcome α :=
  match p.local_ with
  | none => (p, GetOutcome.unallocated)
  | some ls =>
    match ls[pid]? with
    | none => (p, GetOutcome.unallocated)
    | some l =>
      let x := l.private_
      let l1 : poolLocal α := { l with private_ := zero }
      let p1 : Pool α := { p with local_ := some (ls.set pid l1) }
      if isNil x then
        let r := poolChain.popHead isNil l1.shared
        let p2 : Pool α :=
          { p1 with local_ := some (ls.set pid { l1 with shared := r.1 }) }
        match r.2 with
        | PopOutcome.panic => (p2, GetOutcome.panic)
        | PopOutcome.ok v =>
          if isNil v then Pool.getViaSlow zero isNil p2 pid
          else Pool.getFinish isNil p2 v
        | PopOutcome.fail =>
          if isNil zero then Pool.getViaSlow zero isNil p2 pid
          else Pool.getFinish isNil p2 zero
      else Pool.getFinish isNil p1 x

end PoolOps

/-- The process-wide registry (pool.go lines 270-281). `allPools` and
`oldPools` hold pointers to pools; pointer identity is modelled by an
abstract heap of pools addressed by Nat, through which the cleanup
writes. -/
structure PoolRegistry (α : Type) where
  heap : Nat → Pool α
  allPools : List Nat
  oldPools : List Nat

/-- Write-back of one heap cell. -/
def heapSet {α : Type} (h : Nat → Pool α) (i : Nat) (p : Pool α) :
    Nat → Pool α :=
  fun j => if j = i then p else h j

/-- Body of the first `poolCleanup` loop: drop the victim cache
(`p.victim = nil; p.victimSize = 0`). -/
def dropVictim {α : Type} (p : Pool α) : Pool α :=
  { p with victim := none, victimSize := 0 }

/-- Body of the second `poolCleanup` loop: move the primary cache to the
victim cache and clear the primary cache. -/
def promoteLocal {α : Type} (p : Pool α) : Pool α :=
  { p with victim := p.local_, victimSize := p.localSize,
           local_ := none, localSize := 0 }

/-- `poolCleanup` (pool.go lines 244-268): drop victim caches of all old
pools, move primary caches of all registered pools to their victim caches,
then `oldPools, allPools = allPools, nil`. -/
def poolCleanup {α : Type} (r : PoolRegistry α) : PoolRegistry α :=
  let h1 := r.oldPools.foldl (fun h i => heapSet h i (dropVictim (h i))) r.heap
  let h2 := r.allPools.foldl (fun h i => heapSet h i (promoteLocal (h i))) h1
  { heap := h2, allPools := [], oldPools := r.allPools }

/-- The source's `isNil` (reflect-based IsZero, pool.go lines 33-37)
instantiated at Go int values: the zero value 0 is nil. -/
def isNilNat : Nat → Bool := fun n => n == 0

/-- Claim C3 (code bug): on an empty ring (`head == tail`) the source
executes `return *zero, false` where `zero` is a nil `*T`; the nil
dereference aborts the process instead of returning a zero value and
false. -/
theorem c3_popHead_empty_aborts :
    poolDequeue.popHead isNilNat (freshDequeue Nat 8) =
      (freshDequeue Nat 8, PopOutcome.panic) := by decide

/-- Claim C2 (code bug): popTail on a non-empty ring (one value pushed into
a fresh 8-slot segment) wins the CAS, advancing tail from 0 to 1, and then
aborts on the `slot = nil; slot.Store(nil)` nil dereference: the call never
returns the value, and the slot at the old tail position keeps `some 1`
instead of being cleared. -/
theorem c2_popTail_aborts :
    poolDequeue.popTail
        ((poolDequeue.pushHead isNilNat (freshDequeue Nat 8) 1).1) =
      ({ headTail := pack 1 1, vals := some 1 :: List.replicate 7 none },
       PopOutcome.panic) := by decide

/-- Claim C1 (code bug): Put of the non-nil value 1 on a worker whose
private slot holds the empty sentinel does not store into the private slot.
The guard re-tests `isNil(x)` - the value, not the slot - which is
unreachable after the early return, so the value is pushed onto the chain
head and the private slot keeps its zero value. -/
theorem c1_put_skips_private_slot :
    Pool.Put isNilNat
        { New := none, local_ := some [{ private_ := 0, shared := ⟨[]⟩ }],
          localSize := 1, victim := none, victimSize := 0 } 0 1 =
      { New := none,
        local_ := some [{ private_ := 0,
                          shared := ⟨[{ headTail := 2 ^ 32,
                                        vals := some 1 :: List.replicate 7 none }]⟩ }],
        localSize := 1, victim := none, victimSize := 0 } := by rfl

/-- Claim C4 (code bug): with the current generation's chains all empty,
the caller's victim private slot empty and every victim chain empty,
getSlow returns the empty sentinel but does NOT discard the victim
generation: the victim scan's `&x != nil` test is always true, so the scan
returns the zero value on its first iteration and the
`atomic.StoreUintptr(&p.victimSize, 0)` line is never reached -
victimSize stays 1. -/
theorem c4_getSlow_keeps_victim :
    (Pool.getSlow 0 isNilNat
        { New := none, local_ := some [{ private_ := 0, shared := ⟨[]⟩ }],
          localSize := 1,
          victim := some [{ private_ := 0, shared := ⟨[]⟩ }],
          victimSize := 1 } 0).1.victimSize = 1 ∧
    (Pool.getSlow 0 isNilNat
        { New := none, local_ := some [{ private_ := 0, shared := ⟨[]⟩ }],
          localSize := 1,
          victim := some [{ private_ := 0, shared := ⟨[]⟩ }],
          victimSize := 1 } 0).2 = SlowRes.val 0 := by
  constructor <;> decide

/-- Claim C5 (code bug): a single worker Puts 1, 2, 3 into an empty pool
with a factory returning 0; the first three Gets return 3, 2, 1 - exactly
the multiset {1,2,3} - but the fourth Get aborts (popHead dereferences a
nil `*T` on the now-empty ring) instead of returning the factory's 0. -/
theorem c5_round_trip_fourth_get_aborts :
    (let p0 : Pool Nat :=
      { New := some (fun _ => 0),
        local_ := some [{ private_ := 0, shared := ⟨[]⟩ }],
        localSize := 1, victim := none, victimSize := 0 }
     let p3 := Pool.Put isNilNat
       (Pool.Put isNilNat (Pool.Put isNilNat p0 0 1) 0 2) 0 3
     let g1 := Pool.Get 0 isNilNat p3 0
     let g2 := Pool.Get 0 isNilNat g1.1 0
     let g3 := Pool.Get 0 isNilNat g2.1 0
     let g4 := Pool.Get 0 isNilNat g3.1 0
     (g1.2, g2.2, g3.2, g4.2)) =
      (GetOutcome.val 3, GetOutcome.val 2, GetOutcome.val 1,
       GetOutcome.panic) ∧
    ([3, 2, 1] : List Nat).Perm [1, 2, 3] := by
  constructor <;> decide

/-- A fold of heap writes at indices not containing `i` leaves cell `i`
unchanged. -/
theorem foldl_heapSet_not_mem {α : Type} (f : Pool α → Pool α)
    (h : Nat → Pool α) (l : List Nat) (i : Nat) (hi : i ∉ l) :
    (l.foldl (fun g j => heapSet g j (f (g j))) h) i = h i := by
  induction l generalizing h with
  | nil => rfl
  | cons j t ih =>
    have hij : ¬ (i = j) := fun e => hi (List.mem_cons.mpr (Or.inl e))
    have hit : i ∉ t := fun e => hi (List.mem_cons.mpr (Or.inr e))
    simp only [List.foldl_cons]
    rw [ih _ hit]
    simp only [heapSet]
    rw [if_neg hij]

/-- A fold of heap writes along a duplicate-free index list applies the
write body exactly once to each listed cell. -/
theorem foldl_heapSet_mem {α : Type} (f : Pool α → Pool α)
    (h : Nat → Pool α) (l : List Nat) (i : Nat) (hl : l.Nodup) (hi : i ∈ l) :
    (l.foldl (fun g j => heapSet g j (f (g j))) h) i = f (h i) := by
  induction l generalizing h with
  | nil => cases hi
  | cons j t ih =>
    simp only [List.foldl_cons]
    rcases List.nodup_cons.mp hl with ⟨hjt, htd⟩
    by_cases hij : i = j
    · subst hij
      rw [foldl_heapSet_not_mem _ _ _ _ hjt]
      simp [heapSet]
    · have h2 : i ∈ t := by
        rcases List.mem_cons.mp hi with h1 | h2
        · exact absurd h1 hij
        · exact h2
      rw [ih _ htd h2]
      simp only [heapSet]
      rw [if_neg hij]

/-- Claim C9: one decay step (`poolCleanup`) clears the victim generation
(pointer and size) of every pool in the old-pools set, moves each
registered pool's current generation into its victim slot and clears its
current generation, leaves unregistered pools untouched, and swaps the
registry sets: the old-pools set now holds the previously registered pools
and the registered set is empty. -/
theorem c9_poolCleanup {α : Type} (r : PoolRegistry α)
    (hall : r.allPools.Nodup) (hold : r.oldPools.Nodup)
    (hdisj : ∀ i, i ∈ r.allPools → i ∉ r.oldPools) :
    (∀ i ∈ r.oldPools, (poolCleanup r).heap i = dropVictim (r.heap i)) ∧
    (∀ i ∈ r.allPools, (poolCleanup r).heap i = promoteLocal (r.heap i)) ∧
    (∀ i, i ∉ r.oldPools → i ∉ r.allPools → (poolCleanup r).heap i = r.heap i) ∧
    (poolCleanup r).allPools = [] ∧
    (poolCleanup r).oldPools = r.allPools := by
  refine ⟨?_, ?_, ?_, rfl, rfl⟩
  · intro i hiold
    have hinotall : i ∉ r.allPools := fun hiall => hdisj i hiall hiold
    show (r.allPools.foldl (fun g j => heapSet g j (promoteLocal (g j)))
      (r.oldPools.foldl (fun g j => heapSet g j (dropVictim (g j))) r.heap)) i =
        dropVictim (r.heap i)
    rw [foldl_heapSet_not_mem _ _ _ _ hinotall,
        foldl_heapSet_mem _ _ _ _ hold hiold]
  · intro i hiall
    show (r.allPools.foldl (fun g j => heapSet g j (promoteLocal (g j)))
      (r.oldPools.foldl (fun g j => heapSet g j (dropVictim (g j))) r.heap)) i =
        promoteLocal (r.heap i)
    rw [foldl_heapSet_mem _ _ _ _ hall hiall,
        foldl_heapSet_not_mem _ _ _ _ (hdisj i hiall)]
  · intro i hinotold hinotall
    show (r.allPools.foldl (fun g j => heapSet g j (promoteLocal (g j)))
      (r.oldPools.foldl (fun g j => heapSet g j (dropVictim (g j))) r.heap)) i =
        r.heap i
    rw [foldl_heapSet_not_mem _ _ _ _ hinotall,
        foldl_heapSet_not_mem _ _ _ _ hinotold]

/-- A concrete two-pool registry: pool 0 is registered (allPools), pool 1
still holds a victim generation (oldPools). -/
def c9reg : PoolRegistry Nat :=
  { heap := fun i =>
      { New := none, local_ := some [{ private_ := i + 1, shared := ⟨[]⟩ }],
        localSize := 1, victim := some [{ private_ := 9, shared := ⟨[]⟩ }],
        victimSize := 3 },
    allPools := [0], oldPools := [1] }

theorem c9_poolCleanup_witness :
    (∀ i ∈ c9reg.oldPools,
      (poolCleanup c9reg).heap i = dropVictim (c9reg.heap i)) ∧
    (∀ i ∈ c9reg.allPools,
      (poolCleanup c9reg).heap i = promoteLocal (c9reg.heap i)) ∧
    (∀ i, i ∉ c9reg.oldPools → i ∉ c9reg.allPools →
      (poolCleanup c9reg).heap i = c9reg.heap i) ∧
    (poolCleanup c9reg).allPools = [] ∧
    (poolCleanup c9reg).oldPools = c9reg.allPools :=
  c9_poolCleanup c9reg (by decide) (by decide) (by decide)

/-- The distance `head - tail (mod 2^32)` between the unpacked halves of
the packed counter. -/
def hdDist {α : Type} (d : poolDequeue α) : Nat :=
  ((unpack d.headTail).1 + 2 ^ 32 - (unpack d.headTail).2) % 2 ^ 32

/-- The Ring Segment counter invariant: the head runs at most `len(vals)`
positions ahead of the tail in 32-bit wraparound arithmetic. -/
def dequeueInvariant {α : Type} (d : poolDequeue α) : Prop :=
  hdDist d ≤ d.vals.length

theorem hdDist_eq {α : Type} (d : poolDequeue α) :
    hdDist d =
      (d.headTail / 2 ^ 32 % 2 ^ 32 + 2 ^ 32 - d.headTail % 2 ^ 32) % 2 ^ 32 := by
  unfold hdDist
  rw [unpack_eq]

theorem one_shiftLeft_dequeueBits : 1 <<< dequeueBits = 2 ^ 32 := by decide

/-- `pushHead` either leaves the dequeue unchanged (full ring, occupied
slot, or the nil-sentinel abort) or, when the ring is not full, bumps the
head half of the counter by one 32-bit unit, preserving the slot count. -/
theorem pushHead_headTail {α : Type} (isNil : α → Bool) (d : poolDequeue α) (v : α) :
    (poolDequeue.pushHead isNil d v).1 = d ∨
    (((unpack d.headTail).2 + d.vals.length) &&& dequeueMask ≠ (unpack d.headTail).1 ∧
      (poolDequeue.pushHead isNil d v).1.headTail = (d.headTail + 2 ^ 32) % 2 ^ 64 ∧
      (poolDequeue.pushHead isNil d v).1.vals.length = d.vals.length) := by
  unfold poolDequeue.pushHead
  simp only []
  split
  · exact Or.inl (Eq.refl _)
  · split
    · exact Or.inl (Eq.refl _)
    · split
      · exact Or.inl (Eq.refl _)
      · refine Or.inr ⟨by assumption, ?_, by simp⟩
        rw [one_shiftLeft_dequeueBits]

/-- `popHead` leaves the dequeue unchanged when head equals tail (the
abort-on-empty path); otherwise it repacks the counter with head
decremented (uint32 wraparound), preserving the slot count. -/
theorem popHead_headTail {α : Type} (isNil : α → Bool) (d : poolDequeue α) :
    ((poolDequeue.popHead isNil d).1 = d ∧
      (unpack d.headTail).2 = (unpack d.headTail).1) ∨
    ((unpack d.headTail).2 ≠ (unpack d.headTail).1 ∧
      (poolDequeue.popHead isNil d).1.headTail =
        pack (((unpack d.headTail).1 + (2 ^ 32 - 1)) % 2 ^ 32)
          (unpack d.headTail).2 ∧
      (poolDequeue.popHead isNil d).1.vals.length = d.vals.length) := by
  unfold poolDequeue.popHead
  simp only []
  split
  · exact Or.inl ⟨Eq.refl _, by assumption⟩
  · split
    · exact Or.inr ⟨by assumption, Eq.refl _, Eq.refl _⟩
    · split
      · exact Or.inr ⟨by assumption, Eq.refl _, Eq.refl _⟩
      · exact Or.inr ⟨by assumption, Eq.refl _, by simp⟩

/-- `popTail` leaves the dequeue unchanged when tail equals head (the
reported-empty path); otherwise it repacks the counter with tail advanced
by one, leaving the slots untouched. -/
theorem popTail_headTail {α : Type} (d : poolDequeue α) :
    ((poolDequeue.popTail d).1 = d ∧
      (unpack d.headTail).2 = (unpack d.headTail).1) ∨
    ((unpack d.headTail).2 ≠ (unpack d.headTail).1 ∧
      (poolDequeue.popTail d).1.headTail =
        pack (unpack d.headTail).1 ((unpack d.headTail).2 + 1) ∧
      (poolDequeue.popTail d).1.vals = d.vals) := by
  unfold poolDequeue.popTail
  simp only []
  split
  · exact Or.inl ⟨Eq.refl _, by assumption⟩
  · exact Or.inr ⟨by assumption, Eq.refl _, Eq.refl _⟩

/-- Claim C7: the quantity `head - tail (mod 2^32)` lies in [0, N] for a
freshly constructed segment (both the in-pool constructor and the
test-export constructor with near-wraparound indices) and is preserved,
together with the 64-bit width of the packed word, by every `pushHead`,
`popHead` and `popTail`. -/
theorem c7_dequeue_invariant {α : Type} (isNil : α → Bool) :
    (∀ n, dequeueInvariant (freshDequeue α n) ∧
      (freshDequeue α n).headTail < 2 ^ 64) ∧
    (∀ n, dequeueInvariant (NewPoolDequeue α n) ∧
      (NewPoolDequeue α n).headTail < 2 ^ 64) ∧
    (∀ (d : poolDequeue α) (v : α),
      d.vals.length ≤ dequeueLimit → d.headTail < 2 ^ 64 → dequeueInvariant d →
      (dequeueInvariant (poolDequeue.pushHead isNil d v).1 ∧
        (poolDequeue.pushHead isNil d v).1.headTail < 2 ^ 64) ∧
      (dequeueInvariant (poolDequeue.popHead isNil d).1 ∧
        (poolDequeue.popHead isNil d).1.headTail < 2 ^ 64) ∧
      (dequeueInvariant (poolDequeue.popTail d).1 ∧
        (poolDequeue.popTail d).1.headTail < 2 ^ 64)) := by
  refine ⟨?_, ?_, ?_⟩
  · intro n
    constructor
    · unfold dequeueInvariant freshDequeue
      rw [hdDist_eq]
      simp
    · unfold freshDequeue
      simp
  · intro n
    constructor
    · unfold dequeueInvariant NewPoolDequeue
      rw [hdDist_eq]
      simp only [pack_eq, List.length_replicate]
      omega
    · unfold NewPoolDequeue
      simp only [pack_eq]
      omega
  · intro d v hn hwf hinv
    rw [dequeueLimit_eq] at hn
    unfold dequeueInvariant at hinv
    rw [hdDist_eq] at hinv
    refine ⟨?_, ?_, ?_⟩
    · rcases pushHead_headTail isNil d v with heq | ⟨hne, hht, hlen⟩
      · rw [heq]
        exact ⟨by unfold dequeueInvariant; rw [hdDist_eq]; exact hinv, hwf⟩
      · simp only [unpack_eq, land_mask] at hne
        constructor
        · unfold dequeueInvariant
          rw [hdDist_eq, hht, hlen]
          omega
        · rw [hht]
          omega
    · rcases popHead_headTail isNil d with ⟨heq, _⟩ | ⟨hne, hht, hlen⟩
      · rw [heq]
        exact ⟨by unfold dequeueInvariant; rw [hdDist_eq]; exact hinv, hwf⟩
      · simp only [unpack_eq] at hne hht
        rw [pack_eq] at hht
        constructor
        · unfold dequeueInvariant
          rw [hdDist_eq, hht, hlen]
          omega
        · rw [hht]
          omega
    · rcases popTail_headTail d with ⟨heq, _⟩ | ⟨hne, hht, hvals⟩
      · rw [heq]
        exact ⟨by unfold dequeueInvariant; rw [hdDist_eq]; exact hinv, hwf⟩
      · simp only [unpack_eq] at hne hht
        rw [pack_eq] at hht
        constructor
        · unfold dequeueInvariant
          rw [hdDist_eq, hht, hvals]
          omega
        · rw [hht]
          omega

theorem c7_dequeue_invariant_witness :
    dequeueInvariant (poolDequeue.pushHead isNilNat (freshDequeue Nat 8) 5).1 ∧
      (poolDequeue.pushHead isNilNat (freshDequeue Nat 8) 5).1.headTail < 2 ^ 64 :=
  ((c7_dequeue_invariant isNilNat).2.2 (freshDequeue Nat 8) 5 (by decide)
    (by decide) (by unfold dequeueInvariant hdDist; decide)).1

/-- Iterated `pushHead`: push a list of values in order, reporting whether
every push returned true (stopping at the first failure, as a caller
checking each boolean would). -/
def pushMany {α : Type} (isNil : α → Bool) (d : poolDequeue α) :
    List α → poolDequeue α × Bool
  | [] => (d, true)
  | v :: vs =>
    match poolDequeue.pushHead isNil d v with
    | (d1, PushOutcome.ok) => pushMany isNil d1 vs
    | (d1, _) => (d1, false)

/-- The segment state reached after pushing the values `vs` in order into a
fresh segment of capacity `n`: the first `vs.length` slots hold the values,
the head half of the counter is `vs.length`, the tail half 0. -/
def stateAfter (α : Type) (n : Nat) (vs : List α) : poolDequeue α :=
  { headTail := pack vs.length 0,
    vals := vs.map some ++ List.replicate (n - vs.length) none }

theorem stateAfter_vals_length {α : Type} (n : Nat) (vs : List α)
    (h : vs.length ≤ n) : (stateAfter α n vs).vals.length = n := by
  simp [stateAfter]
  omega

/-- One successful push on a partially filled fresh power-of-two segment. -/
theorem pushHead_stateAfter {α : Type} (isNil : α → Bool) (k : Nat)
    (vs : List α) (v : α) (hn : 2 ^ k ≤ dequeueLimit)
    (hlen : vs.length < 2 ^ k) (hv : isNil v = false) :
    poolDequeue.pushHead isNil (stateAfter α (2 ^ k) vs) v =
      (stateAfter α (2 ^ k) (vs ++ [v]), PushOutcome.ok) := by
  have hk30 : 2 ^ k ≤ 2 ^ 30 := by rw [dequeueLimit_eq] at hn; exact hn
  have hL : vs.length < 2 ^ 30 := lt_of_lt_of_le hlen hk30
  have hvlen : (stateAfter α (2 ^ k) vs).vals.length = 2 ^ k :=
    stateAfter_vals_length _ _ (le_of_lt hlen)
  have hup1 : (unpack (stateAfter α (2 ^ k) vs).headTail).1 = vs.length := by
    simp only [stateAfter, unpack_eq, pack_eq]
    omega
  have hup2 : (unpack (stateAfter α (2 ^ k) vs).headTail).2 = 0 := by
    simp only [stateAfter, unpack_eq, pack_eq]
    omega
  have hidx : (unpack (stateAfter α (2 ^ k) vs).headTail).1 &&&
      ((stateAfter α (2 ^ k) vs).vals.length - 1) = vs.length := by
    rw [hup1, hvlen, Nat.and_pow_two_sub_one_eq_mod]
    exact Nat.mod_eq_of_lt hlen
  have hc1 : ¬(((unpack (stateAfter α (2 ^ k) vs).headTail).2 +
      (stateAfter α (2 ^ k) vs).vals.length) &&& dequeueMask =
      (unpack (stateAfter α (2 ^ k) vs).headTail).1) := by
    rw [hup1, hup2, hvlen, land_mask]
    omega
  have hslot : (stateAfter α (2 ^ k) vs).vals.getD
      ((unpack (stateAfter α (2 ^ k) vs).headTail).1 &&&
        ((stateAfter α (2 ^ k) vs).vals.length - 1)) none = none := by
    rw [hidx]
    show (vs.map some ++ List.replicate (2 ^ k - vs.length) none).getD
      vs.length none = none
    rw [List.getD_eq_getElem?_getD,
        List.getElem?_append_right (by simp), List.length_map, Nat.sub_self,
        List.getElem?_replicate, if_pos (by omega)]
    rfl
  unfold poolDequeue.pushHead
  simp only []
  rw [if_neg hc1, if_neg (by rw [hslot]; simp), if_neg (by rw [hv]; simp)]
  have hht : (stateAfter α (2 ^ k) vs).headTail + (1 <<< dequeueBits) =
      pack (vs ++ [v]).length 0 := by
    rw [one_shiftLeft_dequeueBits]
    simp only [stateAfter, pack_eq, List.length_append, List.length_cons,
      List.length_nil]
    omega
  have hmod : pack (vs ++ [v]).length 0 % 2 ^ 64 = pack (vs ++ [v]).length 0 := by
    rw [pack_eq]
    simp only [List.length_append, List.length_cons, List.length_nil]
    omega
  have hvals : (stateAfter α (2 ^ k) vs).vals.set
      ((unpack (stateAfter α (2 ^ k) vs).headTail).1 &&&
        ((stateAfter α (2 ^ k) vs).vals.length - 1)) (some v) =
      (vs ++ [v]).map some ++ List.replicate (2 ^ k - (vs ++ [v]).length) none := by
    rw [hidx]
    show (vs.map some ++ List.replicate (2 ^ k - vs.length) none).set
      vs.length (some v) =
      (vs ++ [v]).map some ++ List.replicate (2 ^ k - (vs ++ [v]).length) none
    rw [List.set_append_right _ _ (by simp), List.length_map, Nat.sub_self]
    have hrep : List.replicate (2 ^ k - vs.length) (none : Option α) =
        none :: List.replicate (2 ^ k - vs.length - 1) none := by
      rw [← List.replicate_succ]
      congr 1
      omega
    rw [hrep]
    simp [List.replicate_succ]
    omega
  rw [hht, hmod, hvals]
  rfl

/-- Pushing the whole list `ws` into a partially filled fresh segment
succeeds push by push while capacity remains. -/
theorem pushMany_stateAfter {α : Type} (isNil : α → Bool) (k : Nat)
    (vs ws : List α) (hn : 2 ^ k ≤ dequeueLimit)
    (hlen : vs.length + ws.length ≤ 2 ^ k)
    (hall : ∀ v ∈ ws, isNil v = false) :
    pushMany isNil (stateAfter α (2 ^ k) vs) ws =
      (stateAfter α (2 ^ k) (vs ++ ws), true) := by
  induction ws generalizing vs with
  | nil => simp [pushMany]
  | cons w ws ih =>
    unfold pushMany
    rw [pushHead_stateAfter isNil k vs w hn (by simp at hlen; omega)
      (hall w (List.mem_cons_self w ws))]
    simp only []
    rw [ih (vs ++ [w]) (by simp at hlen ⊢; omega)
      (fun u hu => hall u (List.mem_cons_of_mem w hu))]
    simp

/-- A full segment rejects a push, leaving the state unchanged. -/
theorem pushHead_full {α : Type} (isNil : α → Bool) (k : Nat) (vs : List α)
    (w : α) (hn : 2 ^ k ≤ dequeueLimit) (hvs : vs.length = 2 ^ k) :
    poolDequeue.pushHead isNil (stateAfter α (2 ^ k) vs) w =
      (stateAfter α (2 ^ k) vs, PushOutcome.fail) := by
  have hk30 : 2 ^ k ≤ 2 ^ 30 := by rw [dequeueLimit_eq] at hn; exact hn
  have hc1 : ((unpack (stateAfter α (2 ^ k) vs).headTail).2 +
      (stateAfter α (2 ^ k) vs).vals.length) &&& dequeueMask =
      (unpack (stateAfter α (2 ^ k) vs).headTail).1 := by
    rw [stateAfter_vals_length _ _ (le_of_eq hvs), land_mask]
    simp only [stateAfter, unpack_eq, pack_eq]
    omega
  unfold poolDequeue.pushHead
  simp only []
  rw [if_pos hc1]

/-- Claim C6: a freshly constructed segment of power-of-two capacity
`N = 2^k` accepts exactly `N` pushes of non-sentinel values (each returning
true), and the `(N+1)`-th push returns false leaving the segment - its
slot contents and its packed head/tail word - unchanged. -/
theorem c6_capacity_fullness {α : Type} (isNil : α → Bool) (k : Nat)
    (vs : List α) (w : α) (hn : 2 ^ k ≤ dequeueLimit)
    (hvs : vs.length = 2 ^ k) (hall : ∀ v ∈ vs, isNil v = false) :
    (pushMany isNil (freshDequeue α (2 ^ k)) vs).2 = true ∧
    poolDequeue.pushHead isNil (pushMany isNil (freshDequeue α (2 ^ k)) vs).1 w =
      ((pushMany isNil (freshDequeue α (2 ^ k)) vs).1, PushOutcome.fail) := by
  have hfresh : freshDequeue α (2 ^ k) = stateAfter α (2 ^ k) [] := by
    unfold freshDequeue stateAfter
    simp [pack_eq]
  rw [hfresh, pushMany_stateAfter isNil k [] vs hn (by simp [hvs]) hall,
    List.nil_append]
  exact ⟨rfl, pushHead_full isNil k vs w hn hvs⟩

theorem c6_capacity_fullness_witness :
    (pushMany isNilNat (freshDequeue Nat (2 ^ 1)) [5, 6]).2 = true ∧
    poolDequeue.pushHead isNilNat
        (pushMany isNilNat (freshDequeue Nat (2 ^ 1)) [5, 6]).1 7 =
      ((pushMany isNilNat (freshDequeue Nat (2 ^ 1)) [5, 6]).1,
        PushOutcome.fail) :=
  c6_capacity_fullness isNilNat 1 [5, 6] 7 (by decide) (by decide) (by decide)

/-- The fullness test of `pushHead` (pool_queue.go line 60):
`(tail+uint32(len(d.vals)))&(1<<dequeueBits-1) == head`. -/
def dequeueFull {α : Type} (d : poolDequeue α) : Prop :=
  ((unpack d.headTail).2 + d.vals.length) &&& dequeueMask = (unpack d.headTail).1

/-- A full segment rejects any push, returning false with the state
unchanged. -/
theorem pushHead_of_full {α : Type} (isNil : α → Bool) (d : poolDequeue α)
    (v : α) (h : dequeueFull d) :
    poolDequeue.pushHead isNil d v = (d, PushOutcome.fail) := by
  unfold dequeueFull at h
  unfold poolDequeue.pushHead
  simp only []
  rw [if_pos h]

/-- `pushHead` never changes the slot count. -/
theorem pushHead_length {α : Type} (isNil : α → Bool) (d : poolDequeue α)
    (v : α) :
    (poolDequeue.pushHead isNil d v).1.vals.length = d.vals.length := by
  rcases pushHead_headTail isNil d v with heq | ⟨_, _, hlen⟩
  · rw [heq]
  · exact hlen

/-- One growth event: pushing onto a chain whose head segment is full
allocates a new head segment of capacity `newChainSize` of the old head's
capacity, keeping every existing segment. -/
theorem chainPush_grow {α : Type} (isNil : α → Bool) (c : poolChain α)
    (v : α) (d : poolDequeue α) (rest : List (poolDequeue α))
    (hsegs : c.segs = d :: rest) (hfull : dequeueFull d) :
    (poolChain.pushHead isNil c v).1.segs.map (fun s => s.vals.length) =
      newChainSize d.vals.length :: c.segs.map (fun s => s.vals.length) := by
  have hc : c = ⟨d :: rest⟩ := by rw [← hsegs]
  rw [hc]
  unfold poolChain.pushHead
  simp only []
  rw [pushHead_of_full isNil d v hfull]
  simp only [pushHead_length, freshDequeue, List.map_cons, List.length_replicate]

/-- Iterating the capped doubling of `newChainSize` along the capacity
formula. -/
theorem newChainSize_min (i : Nat) :
    newChainSize (min (2 ^ (3 + i)) dequeueLimit) =
      min (2 ^ (3 + (i + 1))) dequeueLimit := by
  unfold newChainSize
  simp only [Nat.shiftLeft_eq, pow_one]
  rw [dequeueLimit_eq]
  by_cases hc : 3 + i < 30
  · have h1 : 2 ^ (3 + i) ≤ 2 ^ 30 := Nat.pow_le_pow_right (by norm_num) (by omega)
    rw [min_eq_left h1]
    have h4 : 2 ^ (3 + i) * 2 = 2 ^ (3 + (i + 1)) := by
      rw [show 3 + (i + 1) = (3 + i) + 1 from by omega, pow_succ]
    rw [h4]
    rcases le_or_lt (2 ^ 30) (2 ^ (3 + (i + 1))) with h5 | h5
    · rw [if_pos h5, min_eq_right h5]
    · rw [if_neg (by omega), min_eq_left (le_of_lt h5)]
  · have h1 : 2 ^ 30 ≤ 2 ^ (3 + i) := Nat.pow_le_pow_right (by norm_num) (by omega)
    rw [min_eq_right h1]
    rw [if_pos (by omega)]
    have h3 : 2 ^ 30 ≤ 2 ^ (3 + (i + 1)) := Nat.pow_le_pow_right (by norm_num) (by omega)
    rw [min_eq_right h3]

/-- Unfolding the reversed capacity-formula list by one step. -/
theorem caps_reverse_succ (n : Nat) :
    ((List.range (n + 1)).map (fun i => min (2 ^ (3 + i)) dequeueLimit)).reverse =
      min (2 ^ (3 + n)) dequeueLimit ::
        ((List.range n).map (fun i => min (2 ^ (3 + i)) dequeueLimit)).reverse := by
  rw [List.range_succ]
  simp

/-- Claim C8: after `k` consecutive growth events, each forced by a full
head segment, the chain's segment capacities from oldest to newest are
8, 16, 32, ... - each newly allocated segment exactly double its
predecessor until the cap `dequeueLimit = 2^30` is reached, beyond which
new segments have capacity `dequeueLimit`. Stated newest-first (the order
of the model's segment list): the capacities are the reversed doubling
sequence. -/
theorem c8_chain_growth {α : Type} (isNil : α → Bool) (k : Nat)
    (cs : Nat → poolChain α) (ws : Nat → α)
    (h0 : (cs 0).segs.map (fun s => s.vals.length) = [8])
    (hstep : ∀ i, i < k → ∃ d rest, (cs i).segs = d :: rest ∧ dequeueFull d ∧
      cs (i + 1) = (poolChain.pushHead isNil (cs i) (ws i)).1) :
    (cs k).segs.map (fun s => s.vals.length) =
      ((List.range (k + 1)).map (fun i => min (2 ^ (3 + i)) dequeueLimit)).reverse := by
  induction k with
  | zero =>
    rw [h0]
    decide
  | succ k ih =>
    rcases hstep k (by omega) with ⟨d, rest, hsegs, hfull, hnext⟩
    have ihh := ih (fun i hi => hstep i (by omega))
    have hdcap : d.vals.length = min (2 ^ (3 + k)) dequeueLimit := by
      have hthis := ihh
      rw [hsegs, List.map_cons, caps_reverse_succ k] at hthis
      injection hthis with h1 h2
    rw [hnext, chainPush_grow isNil (cs k) (ws k) d rest hsegs hfull, ihh]
    rw [hdcap]
    rw [newChainSize_min]
    rw [caps_reverse_succ (k + 1)]

/-- A full 8-slot segment: head = 8, tail = 0, every slot occupied. -/
def c8seg : poolDequeue Nat :=
  { headTail := pack 8 0, vals := List.replicate 8 (some 1) }

/-- A one-growth-event trajectory: the chain starts holding the single full
8-slot segment; step 0 pushes the value 2, forcing a growth event. -/
def c8cs : Nat → poolChain Nat :=
  fun i => if i = 0 then ⟨[c8seg]⟩ else (poolChain.pushHead isNilNat ⟨[c8seg]⟩ 2).1

theorem c8_chain_growth_witness :
    (c8cs 1).segs.map (fun s => s.vals.length) =
      ((List.range 2).map (fun i => min (2 ^ (3 + i)) dequeueLimit)).reverse :=
  c8_chain_growth isNilNat 1 c8cs (fun _ => 2) (by decide)
    (fun i hi => by
      cases i with
      | zero => exact ⟨c8seg, [], rfl, by unfold dequeueFull; decide, rfl⟩
      | succ n => exact absurd hi (by omega))
